import Mathlib

/-!
Shallow embedding of the memo-encryption code of abitmore/dhive:
`src/helpers/aes.ts` (the unnamed source file) and `src/memo.ts`.

Modelling conventions.

* Byte strings (Node Buffers, binary strings, UTF-8 text) are `List Nat` of
  byte values; a JavaScript string is represented by its UTF-8 bytes, so
  `memo.startsWith("#")` becomes `memo.head? = some 35` (the hash sign is the
  one-byte UTF-8 character 35, and no multi-byte character starts with 35).
* External collaborators of the two files (node crypto hashes and AES-256-CBC,
  the ECDH shared secret and `createPublic` of the key types, the bytebuffer
  vstring framing, bs58, and the `EncryptedMemo` serializer from `src/chain`
  which is not among the source files) are fields of the `Prims` structure.
  Theorems that need their contracts (hash length, codec round trips, ECDH
  symmetry) take those contracts as explicit hypotheses, mirroring the spec,
  which declares these operations out of scope with exactly those contracts.
* Private and public keys are opaque and modelled as `Nat`.
* `uniqueNonce`'s process-wide entropy state, its two random bytes, and the
  `Date.now()` timestamp are passed explicitly.
* A thrown exception is an `Except.error`.
-/

namespace Dhive

/-- Errors thrown by the aes helper: `new Error("Invalid nonce")` in `crypt`
(line 70) and the failed `assert`s "Missing cipher text" / "Missing plain
text" in the cipher primitives (lines 84 and 97). -/
inductive AesError where
  | invalidNonce
  | missingInput
deriving DecidableEq

/-- A value passed to the aes primitives: a JS binary string, a Buffer, or a
missing argument. JS truthiness distinguishes the empty string (falsy) from
an empty Buffer (an object, hence truthy). -/
inductive BinInput where
  | absent
  | str (bytes : List Nat)
  | buf (bytes : List Nat)
deriving DecidableEq

/-- JS truthiness of a `BinInput` value. -/
def BinInput.truthy : BinInput → Bool
  | .absent => false
  | .str s => !s.isEmpty
  | .buf _ => true

/-- The byte contents of a `BinInput` value. -/
def BinInput.bytes : BinInput → List Nat
  | .absent => []
  | .str s => s
  | .buf b => b

/-- toBinaryBuffer (aes.ts line 123): a truthy string becomes a Buffer of its
bytes, a Buffer stays a Buffer, and a falsy value passes through unchanged. -/
def toBinaryBuffer : BinInput → BinInput
  | .absent => .absent
  | .str s => if s.isEmpty then .str s else .buf s
  | .buf b => .buf b

/-- The EncryptedMemo envelope built in memo.ts lines 25-31 and consumed in
line 52, with fields from/to/nonce/check/encrypted. `from` is a Lean keyword,
hence `fromKey`/`toKey`. -/
structure Envelope where
  fromKey : Nat
  toKey : Nat
  nonce : Nat
  check : Nat
  encrypted : List Nat
deriving DecidableEq

/-- The external collaborators imported by the two source files: node crypto
(`createHash("sha512")`, `createHash("sha256")`, `createCipheriv` and
`createDecipheriv` for aes-256-cbc, taking key, iv, data), the key type
(`get_shared_secret`, `createPublic`), the bytebuffer vstring framing
(`writeVString`, `readVString`; `none` models the throw that line 62 of
memo.ts catches), bs58, and the `EncryptedMemo` serializer pair from
`src/chain` used in memo.ts lines 25 and 50. -/
structure Prims where
  sha512 : List Nat → List Nat
  sha256 : List Nat → List Nat
  aesEncrypt : List Nat → List Nat → List Nat → List Nat
  aesDecrypt : List Nat → List Nat → List Nat → List Nat
  sharedSecret : Nat → Nat → List Nat
  createPublic : Nat → Nat
  writeVString : List Nat → List Nat
  readVString : List Nat → Option (List Nat)
  bs58encode : List Nat → List Nat
  bs58decode : List Nat → List Nat
  serializeMemo : Envelope → List Nat
  deserializeMemoD : List Nat → Envelope

/-- The object returned by `crypt`: `{ nonce, message, checksum }`
(aes.ts line 75). -/
structure CryptResult where
  nonce : Nat
  message : List Nat
  checksum : Nat
deriving DecidableEq

/-- Little-endian uint64 serialization of the nonce, `ebuf.writeUint64(nonce)`
(aes.ts line 56); the bytebuffer Long wraps the value to 64 bits. -/
def nonceBytesLE (nonce : Nat) : List Nat :=
  [nonce % 2 ^ 64 / 256 ^ 0 % 256, nonce % 2 ^ 64 / 256 ^ 1 % 256,
   nonce % 2 ^ 64 / 256 ^ 2 % 256, nonce % 2 ^ 64 / 256 ^ 3 % 256,
   nonce % 2 ^ 64 / 256 ^ 4 % 256, nonce % 2 ^ 64 / 256 ^ 5 % 256,
   nonce % 2 ^ 64 / 256 ^ 6 % 256, nonce % 2 ^ 64 / 256 ^ 7 % 256]

/-- Little-endian uint32 read over the first four bytes,
`cbuf.readUint32()` after `check.slice(0, 4)` (aes.ts lines 65-67). -/
def leU32 (bs : List Nat) : Nat :=
  (bs.take 4).foldr (fun b acc => b + 256 * acc) 0

/-- The 64-byte encryption key material of aes.ts lines 54-59:
sha512 over the little-endian nonce bytes followed by the shared secret. -/
def encryptionKeyOf (p : Prims) (private_key public_key nonce : Nat) : List Nat :=
  p.sha512 (nonceBytesLE nonce ++ p.sharedSecret private_key public_key)

/-- The AES-256 key, `encryption_key.slice(0, 32)` (aes.ts line 61). -/
def tagOf (p : Prims) (private_key public_key nonce : Nat) : List Nat :=
  (encryptionKeyOf p private_key public_key nonce).take 32

/-- The CBC IV, `encryption_key.slice(32, 48)` (aes.ts line 60). -/
def ivOf (p : Prims) (private_key public_key nonce : Nat) : List Nat :=
  ((encryptionKeyOf p private_key public_key nonce).drop 32).take 16

/-- The checksum: the first four bytes of sha256 over the key material, read
as a little-endian uint32 (aes.ts lines 64-67). -/
def checkOf (p : Prims) (private_key public_key nonce : Nat) : Nat :=
  leU32 ((p.sha256 (encryptionKeyOf p private_key public_key nonce)).take 4)

/-- cryptoJsDecrypt (aes.ts lines 83-89): `assert(message, "Missing cipher
text")`, then `toBinaryBuffer`, then aes-256-cbc decryption with the derived
key (called `tag` in the source) and iv. -/
def cryptoJsDecrypt (p : Prims) (message : BinInput) (tag iv : List Nat) :
    Except AesError (List Nat) :=
  if message.truthy then
    .ok (p.aesDecrypt tag iv (toBinaryBuffer message).bytes)
  else .error .missingInput

/-- cryptoJsEncrypt (aes.ts lines 96-102): `assert(message, "Missing plain
text")`, then `toBinaryBuffer`, then aes-256-cbc encryption. -/
def cryptoJsEncrypt (p : Prims) (message : BinInput) (tag iv : List Nat) :
    Except AesError (List Nat) :=
  if message.truthy then
    .ok (p.aesEncrypt tag iv (toBinaryBuffer message).bytes)
  else .error .missingInput

/-- crypt (aes.ts lines 45-76). `checksum` is absent on the encrypt path and
a number on the decrypt path; the source tests it with JS truthiness
(`if (checksum)`, line 69), so the value 0 behaves like an absent checksum.
`toLongObj` (line 52) wraps the nonce to 64 bits. -/
def crypt (p : Prims) (private_key public_key nonce : Nat) (message : BinInput)
    (checksum : Option Nat) : Except AesError CryptResult :=
  let nonceL := nonce % 2 ^ 64
  let tag := tagOf p private_key public_key nonce
  let iv := ivOf p private_key public_key nonce
  let check := checkOf p private_key public_key nonce
  match checksum with
  | some c =>
    if c ≠ 0 then
      if check ≠ c then .error .invalidNonce
      else
        match cryptoJsDecrypt p message tag iv with
        | .error e => .error e
        | .ok m => .ok ⟨nonceL, m, check⟩
    else
      match cryptoJsEncrypt p message tag iv with
      | .error e => .error e
      | .ok m => .ok ⟨nonceL, m, check⟩
  | none =>
    match cryptoJsEncrypt p message tag iv with
    | .error e => .error e
    | .ok m => .ok ⟨nonceL, m, check⟩

/-- encrypt (aes.ts lines 19-25): the message is framed by `writeVString`
and handed to `crypt` with no checksum. Note that line 24 passes
`uniqueNonce()` to `crypt`, not the `nonce` parameter: the parameter
`nonceArg` is accepted and then unused. `generatedNonce` stands for the
value that the `uniqueNonce()` call returned. -/
def encrypt (p : Prims) (private_key public_key : Nat) (message : List Nat)
    (nonceArg : Option Nat) (generatedNonce : Nat) : Except AesError CryptResult :=
  let mbuf := p.writeVString message
  crypt p private_key public_key generatedNonce (.buf mbuf) none

/-- decrypt (aes.ts lines 37-39): `crypt` with the supplied checksum,
projecting the message field. -/
def decrypt (p : Prims) (private_key public_key nonce : Nat) (message : BinInput)
    (checksum : Nat) : Except AesError (List Nat) :=
  match crypt p private_key public_key nonce message (some checksum) with
  | .error e => .error e
  | .ok r => .ok r.message

/-- Process-wide entropy state of uniqueNonce (aes.ts line 108): the
variable `unique_nonce_entropy`, `null` before first use. -/
structure NonceState where
  entropy : Option Nat
deriving DecidableEq

/-- uniqueNonce (aes.ts lines 110-120). The two random bytes read on first
use and the `Date.now()` timestamp are explicit inputs; the returned Long is
modelled by its unsigned 64-bit value. The source computes
`++unique_nonce_entropy % 0xFFFF` — the global keeps the unwrapped
incremented value, and the entropy bits are taken modulo 0xFFFF = 65535. -/
def uniqueNonce (b0 b1 now : Nat) (st : NonceState) : Nat × NonceState :=
  let e0 := match st.entropy with
    | none => ((b0 % 256) <<< 8) ||| (b1 % 256)
    | some e => e
  let e1 := e0 + 1
  let entropy := e1 % 0xFFFF
  let long := now % 2 ^ 64
  (((long <<< 16) % 2 ^ 64) ||| entropy, ⟨some e1⟩)

/-- The marker of encrypted memos: the UTF-8 byte of the hash sign. -/
def marker : Nat := 35

/-- Lines 57-67 of memo.ts: try to strip the vstring length framing from the
decrypted bytes and prepend the marker; when `readVString` throws, fall back
to the whole decrypted byte sequence as UTF-8 text, marker prepended. -/
def unframeMark (p : Prims) (m : List Nat) : List Nat :=
  match p.readVString m with
  | some s => marker :: s
  | none => marker :: m

/-- encode (memo.ts lines 15-35): pass unmarked memos through, otherwise
strip the marker, call `Aes.encrypt` (handing it `testNonce`), serialize the
envelope `{check, encrypted, from, nonce, to}` and base58-encode it behind
the marker. -/
def encode (p : Prims) (private_key public_key : Nat) (memo : List Nat)
    (testNonce : Option Nat) (generatedNonce : Nat) : Except AesError (List Nat) :=
  if memo.head? = some marker then
    match encrypt p private_key public_key memo.tail testNonce generatedNonce with
    | .error e => .error e
    | .ok r =>
      .ok (marker :: p.bs58encode (p.serializeMemo
        ⟨p.createPublic private_key, public_key, r.nonce, r.checksum, r.message⟩))
  else .ok memo

/-- decode (memo.ts lines 42-68): pass unmarked memos through, otherwise
base58-decode, deserialize the envelope, resolve the counterparty key by
comparing the own public key with `from`, call `Aes.decrypt` with it, and
unframe the result. -/
def decode (p : Prims) (private_key : Nat) (memo : List Nat) :
    Except AesError (List Nat) :=
  if memo.head? = some marker then
    let env := p.deserializeMemoD (p.bs58decode memo.tail)
    let pubkey := p.createPublic private_key
    let otherpub := if pubkey = env.fromKey then env.toKey else env.fromKey
    match decrypt p private_key otherpub env.nonce (.buf env.encrypted) env.check with
    | .error e => .error e
    | .ok m => .ok (unframeMark p m)
  else .ok memo

/-- KeySchedule.derive as worded in the spec: serialize the nonce as 8
little-endian bytes, concatenate with the shared-secret bytes, sha512 to the
64-byte key material; key = bytes [0,32), iv = bytes [32,48); checksum = the
first 4 bytes of sha256 over the material, interpreted as a little-endian
unsigned 32-bit integer. Written from the words of the spec, to be compared
with the derivation of `crypt`. -/
def deriveKeySpec (p : Prims) (nonce : Nat) (sharedSecretBytes : List Nat) :
    List Nat × List Nat × Nat :=
  let material :=
    p.sha512 (((List.range 8).map fun i => nonce % 2 ^ 64 / 2 ^ (8 * i) % 256)
      ++ sharedSecretBytes)
  let c := p.sha256 material
  (material.take 32, (material.drop 32).take 16,
    c.getD 0 0 + 2 ^ 8 * c.getD 1 0 + 2 ^ 16 * c.getD 2 0 + 2 ^ 24 * c.getD 3 0)

/-- A concrete instantiation of the external collaborators, satisfying their
contracts (codec round trips, symmetric shared secret, 32-byte sha256
output), used to evaluate the model on closed inputs. -/
def testPrims : Prims where
  sha512 := fun _ => List.replicate 64 7
  sha256 := fun _ => List.replicate 32 9
  aesEncrypt := fun _ _ m => 0 :: m
  aesDecrypt := fun _ _ m => m.tail
  sharedSecret := fun a b => [(a + b) % 1000]
  createPublic := fun k => k + 1000
  writeVString := fun m => 0 :: m
  readVString := fun m => match m with | [] => none | _ :: r => some r
  bs58encode := fun b => b
  bs58decode := fun b => b
  serializeMemo := fun e => e.fromKey :: e.toKey :: e.nonce :: e.check :: e.encrypted
  deserializeMemoD := fun l =>
    match l with
    | f :: t :: n :: c :: e => ⟨f, t, n, c, e⟩
    | _ => ⟨0, 0, 0, 0, []⟩

/-! Helper lemmas shared by the claim theorems. -/

/-- The nonce byte serialization only depends on the nonce modulo 2^64. -/
theorem nonceBytesLE_mod (n : Nat) : nonceBytesLE (n % 2 ^ 64) = nonceBytesLE n := by
  unfold nonceBytesLE
  rw [show n % 2 ^ 64 % 2 ^ 64 = n % 2 ^ 64 from by omega]

/-- The derived key material only depends on the nonce modulo 2^64. -/
theorem keyMaterial_mod (p : Prims) (a pa n : Nat) :
    tagOf p a pa (n % 2 ^ 64) = tagOf p a pa n ∧
    ivOf p a pa (n % 2 ^ 64) = ivOf p a pa n ∧
    checkOf p a pa (n % 2 ^ 64) = checkOf p a pa n := by
  unfold tagOf ivOf checkOf encryptionKeyOf
  rw [nonceBytesLE_mod]
  exact ⟨rfl, rfl, rfl⟩

/-- Key pairs deriving the same shared secret derive the same key material. -/
theorem keyMaterial_congr (p : Prims) (a pa b pb n : Nat)
    (h : p.sharedSecret a pa = p.sharedSecret b pb) :
    tagOf p a pa n = tagOf p b pb n ∧
    ivOf p a pa n = ivOf p b pb n ∧
    checkOf p a pa n = checkOf p b pb n := by
  unfold tagOf ivOf checkOf encryptionKeyOf
  rw [h]
  exact ⟨rfl, rfl, rfl⟩

/-- Low 16 bits of a value composed by shift-or with a small entropy part. -/
theorem shiftLeft_lor_low (x e : Nat) (he : e < 2 ^ 16) :
    ((x <<< 16) ||| e) % 2 ^ 16 = e := by
  apply Nat.eq_of_testBit_eq
  intro i
  rw [Nat.testBit_mod_two_pow, Nat.testBit_lor, Nat.testBit_shiftLeft]
  rcases Nat.lt_or_ge i 16 with h | h
  · have h1 : ¬ i ≥ 16 := by omega
    simp [h, h1]
  · have h1 : e.testBit i = false :=
      Nat.testBit_lt_two_pow (lt_of_lt_of_le he (Nat.pow_le_pow_right (by norm_num) h))
    have h2 : ¬ i < 16 := by omega
    simp [h1, h2]

/-- High bits of a value composed by shift-or with a small entropy part. -/
theorem shiftLeft_lor_high (x e : Nat) (he : e < 2 ^ 16) :
    ((x <<< 16) ||| e) / 2 ^ 16 = x := by
  apply Nat.eq_of_testBit_eq
  intro i
  have hdiv : (((x <<< 16) ||| e) / 2 ^ 16).testBit i
      = ((x <<< 16) ||| e).testBit (16 + i) := by
    rw [Nat.testBit_to_div_mod, Nat.testBit_to_div_mod, Nat.div_div_eq_div_mul,
      Nat.pow_add]
  rw [hdiv, Nat.testBit_lor, Nat.testBit_shiftLeft]
  have h1 : e.testBit (16 + i) = false :=
    Nat.testBit_lt_two_pow
      (lt_of_lt_of_le he (Nat.pow_le_pow_right (by norm_num) (by omega)))
  have h2 : 16 + i - 16 = i := by omega
  simp [h1, h2, Nat.le_add_right]

/-! The claim theorems. -/

/-- Claim C1: the claim states that a nonce supplied to encrypt (via
encode's testNonce) is the nonce of the returned envelope, the generator
being consulted only when no nonce is supplied. The code contradicts this
(and its own doc comment `[nonce = uniqueNonce()]`): line 24 of aes.ts
always passes `uniqueNonce()` to `crypt`, discarding the parameter. This
theorem exhibits the behaviour: the result is unchanged by the supplied
nonce, its envelope nonce is the generated one, and encode's output does
not depend on testNonce at all. -/
theorem encrypt_discards_supplied_nonce (p : Prims) (a pb : Nat) (msg memo : List Nat)
    (n g : Nat) (tn : Option Nat) :
    encrypt p a pb msg (some n) g = encrypt p a pb msg none g ∧
    encrypt p a pb msg (some n) g =
      .ok ⟨g % 2 ^ 64,
        p.aesEncrypt (tagOf p a pb g) (ivOf p a pb g) (p.writeVString msg),
        checkOf p a pb g⟩ ∧
    encode p a pb memo (some n) g = encode p a pb memo tn g := by
  refine ⟨rfl, ?_, rfl⟩
  simp [encrypt, crypt, cryptoJsEncrypt, toBinaryBuffer, BinInput.truthy, BinInput.bytes]

/-- Claim C10: a decrypt call whose expected checksum is 0 skips the
checksum verification (JS truthiness of `if (checksum)`) and runs the
encryption branch on the supplied ciphertext, returning it without error. -/
theorem decrypt_checksum_zero_encrypts (p : Prims) (priv pub nonce : Nat)
    (m : List Nat) :
    decrypt p priv pub nonce (.buf m) 0 =
      .ok (p.aesEncrypt (tagOf p priv pub nonce) (ivOf p priv pub nonce) m) := by
  simp [decrypt, crypt, cryptoJsEncrypt, toBinaryBuffer, BinInput.truthy, BinInput.bytes]

/-- Claim C3 counterexample: a decrypt call whose expected checksum is 0
while the derived checksum is nonzero does not fail with the invalid-nonce
error (it silently runs the encryption branch), refuting the claim that
every checksum mismatch fails. -/
theorem decrypt_zero_expected_checksum_no_error :
    checkOf testPrims 1 2 3 ≠ 0 ∧
    decrypt testPrims 1 2 3 (.buf [5]) 0 = .ok [0, 5] :=
  ⟨by decide, rfl⟩

/-- Claim C3 (amended): whenever the expected checksum is nonzero and
differs from the derived checksum, crypt fails with the invalid-nonce error,
and it does so for every choice of the AES primitives — no decryption is
attempted. -/
theorem crypt_checksum_mismatch_invalid_nonce (p : Prims) (priv pub nonce c : Nat)
    (msg : BinInput) (hc : c ≠ 0) (hne : checkOf p priv pub nonce ≠ c) :
    crypt p priv pub nonce msg (some c) = .error .invalidNonce ∧
    ∀ q : Prims, q.sha512 = p.sha512 → q.sha256 = p.sha256 →
      q.sharedSecret = p.sharedSecret →
      crypt q priv pub nonce msg (some c) = .error .invalidNonce := by
  constructor
  · simp [crypt, hc, hne]
  · intro q h5 h2 hs
    have hq : checkOf q priv pub nonce = checkOf p priv pub nonce := by
      unfold checkOf encryptionKeyOf
      rw [h5, h2, hs]
    simp [crypt, hc, hq, hne]

/-- Witness for the amended C3 theorem at a concrete decrypt call. -/
theorem crypt_checksum_mismatch_invalid_nonce_witness :
    crypt testPrims 1 2 3 (.buf [5]) (some 1) = .error .invalidNonce :=
  (crypt_checksum_mismatch_invalid_nonce testPrims 1 2 3 1 (.buf [5])
    (by decide) (by decide)).1

/-- Claim C5: a memo that does not start with the marker passes through both
encode and decode unchanged. -/
theorem marker_passthrough (p : Prims) (priv pub : Nat) (memo : List Nat)
    (tn : Option Nat) (g : Nat) (h : memo.head? ≠ some marker) :
    encode p priv pub memo tn g = .ok memo ∧ decode p priv memo = .ok memo := by
  constructor <;> simp [encode, decode, h]

/-- Witness for the marker pass-through at a concrete unmarked memo. -/
theorem marker_passthrough_witness :
    encode testPrims 1 2 [104] none 0 = .ok [104] ∧
    decode testPrims 1 [104] = .ok [104] :=
  marker_passthrough testPrims 1 2 [104] none 0 (by decide)

/-- Claim C9 counterexample: an empty Buffer is a truthy JS value, so it
passes the `assert(message)` guard of the cipher primitives and the AES
cipher is invoked on it, refuting the claim that every empty input fails
with the missing-input error. -/
theorem empty_buffer_passes_assert :
    cryptoJsEncrypt testPrims (.buf []) [1] [2] = .ok [0] ∧
    cryptoJsDecrypt testPrims (.buf []) [1] [2] = .ok [] ∧
    cryptoJsEncrypt testPrims (.buf []) [1] [2] ≠ .error .missingInput := by
  refine ⟨rfl, rfl, ?_⟩
  simp [cryptoJsEncrypt, toBinaryBuffer, BinInput.truthy, BinInput.bytes]

/-- Claim C9 (amended): an absent input or an empty (falsy) string input
fails with the missing-input error before any cryptographic work, for every
choice of the external primitives. -/
theorem missing_input_guard (p : Prims) (tag iv : List Nat) (msg : BinInput)
    (h : msg = .absent ∨ msg = .str []) :
    cryptoJsEncrypt p msg tag iv = .error .missingInput ∧
    cryptoJsDecrypt p msg tag iv = .error .missingInput ∧
    ∀ q : Prims, cryptoJsEncrypt q msg tag iv = .error .missingInput ∧
      cryptoJsDecrypt q msg tag iv = .error .missingInput := by
  rcases h with h | h <;> subst h <;> exact ⟨rfl, rfl, fun q => ⟨rfl, rfl⟩⟩

/-- Witness for the amended C9 theorem at a concrete absent input. -/
theorem missing_input_guard_witness :
    cryptoJsEncrypt testPrims .absent [1] [2] = .error .missingInput :=
  (missing_input_guard testPrims [1] [2] .absent (Or.inl rfl)).1

/-- Claim C4: the key derivation of `crypt` matches the spec wording of
KeySchedule.derive: sha512 over the 8-byte little-endian nonce followed by
the shared secret, key = bytes [0,32), iv = bytes [32,48), checksum = the
first 4 bytes of sha256 over the 64-byte material as a little-endian uint32.
The hypothesis fixes the sha256 digest length at its real 32 bytes. -/
theorem keySchedule_matches_spec (p : Prims) (priv pub nonce : Nat)
    (hlen : (p.sha256 (encryptionKeyOf p priv pub nonce)).length = 32) :
    (tagOf p priv pub nonce, ivOf p priv pub nonce, checkOf p priv pub nonce) =
      deriveKeySpec p nonce (p.sharedSecret priv pub) := by
  have hb : ((List.range 8).map fun i => nonce % 2 ^ 64 / 2 ^ (8 * i) % 256) =
      nonceBytesLE nonce := by
    have hr : List.range 8 = [0, 1, 2, 3, 4, 5, 6, 7] := by decide
    rw [hr]
    simp [nonceBytesLE]
  unfold deriveKeySpec
  rw [hb]
  unfold tagOf ivOf checkOf encryptionKeyOf
  simp only [Prod.mk.injEq]
  refine ⟨trivial, trivial, ?_⟩
  rcases hl : p.sha256 (p.sha512 (nonceBytesLE nonce ++ p.sharedSecret priv pub))
      with _ | ⟨c0, _ | ⟨c1, _ | ⟨c2, _ | ⟨c3, cr⟩⟩⟩⟩ <;>
    rw [encryptionKeyOf] at hlen <;> rw [hl] at hlen <;> simp at hlen
  rw [leU32]
  simp [List.getD]
  ring

/-- Witness for the key-schedule refinement at concrete primitives. -/
theorem keySchedule_matches_spec_witness :
    (tagOf testPrims 1 2 3, ivOf testPrims 1 2 3, checkOf testPrims 1 2 3) =
      deriveKeySpec testPrims 3 (testPrims.sharedSecret 1 2) :=
  keySchedule_matches_spec testPrims 1 2 3 (by decide)

/-- Claim C6: for a marked memo, decode resolves the counterparty by
comparing the own public key with the envelope's from field — equal means
the counterparty is the to key, otherwise the from key — and hands exactly
that key to decrypt, which derives the shared secret from it. -/
theorem decode_counterparty_resolution (p : Prims) (priv : Nat) (memo : List Nat)
    (env : Envelope) (h : memo.head? = some marker)
    (henv : p.deserializeMemoD (p.bs58decode memo.tail) = env) :
    decode p priv memo =
      match decrypt p priv
          (if p.createPublic priv = env.fromKey then env.toKey else env.fromKey)
          env.nonce (.buf env.encrypted) env.check with
      | .error e => .error e
      | .ok m => .ok (unframeMark p m) := by
  simp [decode, h, henv]

/-- Witness for the counterparty resolution at a concrete envelope whose
from key differs from the caller's public key. -/
theorem decode_counterparty_resolution_witness :
    decode testPrims 1 [35, 10, 20, 30, 40] = .error .invalidNonce :=
  (decode_counterparty_resolution testPrims 1 [35, 10, 20, 30, 40]
    ⟨10, 20, 30, 40, []⟩ rfl rfl).trans rfl

/-- Claim C7: when the decrypted bytes of a marked memo do not parse as a
length-prefixed string, decode does not fail: it returns the marker followed
by the entire decrypted byte sequence. -/
theorem decode_framing_fallback (p : Prims) (priv : Nat) (memo m : List Nat)
    (env : Envelope) (h : memo.head? = some marker)
    (henv : p.deserializeMemoD (p.bs58decode memo.tail) = env)
    (hdec : decrypt p priv
        (if p.createPublic priv = env.fromKey then env.toKey else env.fromKey)
        env.nonce (.buf env.encrypted) env.check = .ok m)
    (hparse : p.readVString m = none) :
    decode p priv memo = .ok (marker :: m) := by
  simp [decode, h, henv, hdec, unframeMark, hparse]

/-- Witness for the framing fallback at a concrete envelope whose
decrypted payload is empty, hence unparseable. -/
theorem decode_framing_fallback_witness :
    decode testPrims 1 [35, 10, 20, 30, 151587081, 5] = .ok [35] :=
  decode_framing_fallback testPrims 1 [35, 10, 20, 30, 151587081, 5] []
    ⟨10, 20, 30, 151587081, [5]⟩ rfl rfl rfl rfl

/-- Claim C8 counterexample: with the entropy counter at 65534 (reachable
directly from the random two-byte initialization 0xFF 0xFE), the nonce the
code returns differs from the one the claim's formula — increment wrapping
modulo 65536 — prescribes: the code computes the entropy bits modulo
0xFFFF = 65535, mapping the counter value 65535 to 0 instead of 65535. -/
theorem uniqueNonce_modulus_counterexample :
    (uniqueNonce 255 254 0 ⟨none⟩).1 ≠
      ((0 <<< 16) ||| (((((255 % 256) <<< 8) ||| (254 % 256)) + 1) % 65536)) := by
  decide

/-- Claim C8 (amended): each call stores the incremented counter unwrapped
(initialized once from two random bytes) and returns the 64-bit value
(timestamp_ms << 16) | entropy where entropy is the incremented counter
modulo 65535 (0xFFFF), not 65536: the low 16 bits of the nonce are the
entropy value and the high bits are the timestamp. -/
theorem uniqueNonce_formula (b0 b1 now e : Nat) (hnow : now < 2 ^ 48) :
    (uniqueNonce b0 b1 now ⟨some e⟩).2 = ⟨some (e + 1)⟩ ∧
    (uniqueNonce b0 b1 now ⟨none⟩).2 =
      ⟨some ((((b0 % 256) <<< 8) ||| (b1 % 256)) + 1)⟩ ∧
    (uniqueNonce b0 b1 now ⟨some e⟩).1 % 2 ^ 16 = (e + 1) % 65535 ∧
    (uniqueNonce b0 b1 now ⟨some e⟩).1 / 2 ^ 16 = now := by
  have h1 : now % 2 ^ 64 = now := by omega
  have h2 : ((now % 2 ^ 64) <<< 16) % 2 ^ 64 = now <<< 16 := by
    rw [h1, Nat.shiftLeft_eq]
    omega
  refine ⟨rfl, rfl, ?_, ?_⟩
  · show (((now % 2 ^ 64) <<< 16) % 2 ^ 64 ||| (e + 1) % 65535) % 2 ^ 16 = (e + 1) % 65535
    rw [h2]
    exact shiftLeft_lor_low now ((e + 1) % 65535) (by omega)
  · show (((now % 2 ^ 64) <<< 16) % 2 ^ 64 ||| (e + 1) % 65535) / 2 ^ 16 = now
    rw [h2]
    exact shiftLeft_lor_high now ((e + 1) % 65535) (by omega)

/-- Witness for the amended C8 theorem at concrete state and time. -/
theorem uniqueNonce_formula_witness :
    (uniqueNonce 3 4 100 ⟨some 7⟩).2 = ⟨some (7 + 1)⟩ ∧
    (uniqueNonce 3 4 100 ⟨none⟩).2 =
      ⟨some ((((3 % 256) <<< 8) ||| (4 % 256)) + 1)⟩ ∧
    (uniqueNonce 3 4 100 ⟨some 7⟩).1 % 2 ^ 16 = (7 + 1) % 65535 ∧
    (uniqueNonce 3 4 100 ⟨some 7⟩).1 / 2 ^ 16 = 100 :=
  uniqueNonce_formula 3 4 100 7 (by decide)

/-- Claim C2: for every key pair and plaintext, under the contracts of the
external collaborators (vstring and base58 and envelope codec round trips,
AES decryption inverting encryption, ECDH symmetry of the shared secret) and
a nonzero derived checksum (see the C10 caveat on the 0 value), both the
sender and the recipient decode an encoded memo back to the plaintext with
their own private keys. -/
theorem memo_roundtrip (p : Prims) (a b : Nat) (P : List Nat) (tn : Option Nat)
    (g : Nat) (s : List Nat)
    (hvs : ∀ m, p.readVString (p.writeVString m) = some m)
    (hb58 : ∀ x, p.bs58decode (p.bs58encode x) = x)
    (hser : ∀ e, p.deserializeMemoD (p.serializeMemo e) = e)
    (haes : ∀ k iv m, p.aesDecrypt k iv (p.aesEncrypt k iv m) = m)
    (hecdh : p.sharedSecret a (p.createPublic b) = p.sharedSecret b (p.createPublic a))
    (hck : checkOf p a (p.createPublic b) g ≠ 0)
    (henc : encode p a (p.createPublic b) P tn g = .ok s) :
    decode p a s = .ok P ∧ decode p b s = .ok P := by
  by_cases hm : P.head? = some marker
  · cases P with
    | nil => simp at hm
    | cons h0 t =>
      simp only [List.head?_cons, Option.some.injEq] at hm
      subst hm
      simp only [encode, encrypt, crypt, cryptoJsEncrypt, toBinaryBuffer,
        BinInput.truthy, BinInput.bytes, List.head?_cons, List.tail_cons,
        if_pos, if_true, Bool.true_eq] at henc
      simp only [Except.ok.injEq] at henc
      subst henc
      have hmoda := keyMaterial_mod p a (p.createPublic b) g
      norm_num at hmoda
      constructor
      · simp [decode, decrypt, crypt, cryptoJsDecrypt, toBinaryBuffer,
          BinInput.truthy, BinInput.bytes, unframeMark, hb58, hser,
          hmoda.1, hmoda.2.1, hmoda.2.2, hck, haes, hvs]
      · by_cases hbb : p.createPublic b = p.createPublic a
        · rw [hbb] at hck hecdh ⊢
          have hS2 : p.sharedSecret b (p.createPublic a) =
              p.sharedSecret a (p.createPublic a) := hecdh.symm
          have hmb := keyMaterial_mod p b (p.createPublic a) g
          norm_num at hmb
          have hcg := keyMaterial_congr p b (p.createPublic a) a (p.createPublic a) g hS2
          simp [decode, decrypt, crypt, cryptoJsDecrypt, toBinaryBuffer,
            BinInput.truthy, BinInput.bytes, unframeMark, hb58, hser,
            hmb.1, hmb.2.1, hmb.2.2, hcg.1, hcg.2.1, hcg.2.2, hck, haes, hvs]
        · have hS3 : p.sharedSecret b (p.createPublic a) =
              p.sharedSecret a (p.createPublic b) := hecdh.symm
          have hmb := keyMaterial_mod p b (p.createPublic a) g
          norm_num at hmb
          have hcg := keyMaterial_congr p b (p.createPublic a) a (p.createPublic b) g hS3
          simp [decode, decrypt, crypt, cryptoJsDecrypt, toBinaryBuffer,
            BinInput.truthy, BinInput.bytes, unframeMark, hb58, hser, hbb,
            hmb.1, hmb.2.1, hmb.2.2, hcg.1, hcg.2.1, hcg.2.2, hck, haes, hvs]
  · have hs : s = P := by
      simp only [encode, if_neg hm, Except.ok.injEq] at henc
      exact henc.symm
    subst hs
    exact ⟨by simp [decode, hm], by simp [decode, hm]⟩

/-- Witness for the round trip at concrete primitives, keys 1 and 2,
the memo Bytes of the string hash-h, and generated nonce 5. -/
theorem memo_roundtrip_witness :
    decode testPrims 1 [35, 1001, 1002, 5, 151587081, 0, 0, 104] = .ok [35, 104] ∧
    decode testPrims 2 [35, 1001, 1002, 5, 151587081, 0, 0, 104] = .ok [35, 104] :=
  memo_roundtrip testPrims 1 2 [35, 104] none 5
    [35, 1001, 1002, 5, 151587081, 0, 0, 104]
    (fun m => rfl) (fun x => rfl) (fun e => by cases e <;> rfl)
    (fun k iv m => rfl) rfl (by decide) rfl

end Dhive
